import Mathlib

/-!
Verification of the multispeckle autocorrelation pipeline of `lseval`
(`speckles.py` / `msprocessing.py`), embedded shallowly over `ℚ`.

Machine floats of the source become rationals here; the source's
element-wise square root in the FAKF computation is carried as the
*squared* FAKF (`timeFAKFsq`), since every property of interest concerns
the expression under the root. In `ℚ`, division by zero yields `0`
(the source produces NaN/Inf there); theorems about degenerate inputs
therefore speak about the zero denominator itself.
-/

/-- Read a rational list at an integer index; out-of-range reads give `0`.
This expresses that positions outside the overlap of the two correlated
sequences contribute zero to the correlation sums. -/
def getQ (l : List ℚ) (i : ℤ) : ℚ :=
  if 0 ≤ i ∧ i < l.length then l.getD i.toNat 0 else 0

/-- Zero-pad `l` at the end to length `M`
(the `np.append(y, np.repeat(0, pad_amount))` step of `xcorr`). -/
def padZeros (l : List ℚ) (M : ℕ) : List ℚ :=
  l ++ List.replicate (M - l.length) 0

/-- Full linear cross-correlation of two (padded, length-`M`) sequences:
entry `j` of the length `2*M-1` output is the dot product of `x` shifted
by lag `j - (M-1)` against `y`, matching
`np.correlate(x, y, mode='full')` and
`signal.fftconvolve(x, y[::-1], mode='full')` of the source. -/
def corrFull (x y : List ℚ) (M : ℕ) : List ℚ :=
  (List.range (2 * M - 1)).map (fun j : ℕ =>
    ∑ n ∈ Finset.range M, getQ x ((n : ℤ) + (j : ℤ) - ((M : ℤ) - 1)) * getQ y n)

/-- The lag axis `np.arange(-(x.size - 1), x.size)` of `xcorr`. -/
def xcorrLags (M : ℕ) : List ℤ :=
  (List.range (2 * M - 1)).map (fun j : ℕ => (j : ℤ) - ((M : ℤ) - 1))

/-- Scaling mode of `xcorr`. The source also accepts `'coeff'`
(division by `sqrt(dot(x,x)*dot(y,y))`); it is irrational-valued and
unused by every caller in the repository, so it is not modelled. -/
inductive Scale where
  | none
  | biased
  | unbiased
deriving DecidableEq

/-- `xcorr(x, y, scale)` of `speckles.py` / `msprocessing.py`: pad the
shorter input with zeros to the common length `M`, form the full
cross-correlation and the lag axis, then scale:
`biased` divides everything by `M`, `unbiased` divides entry at lag `k`
by `M - |k|`. -/
def xcorr (x y : List ℚ) (scale : Scale) : List ℚ × List ℤ :=
  let M := max x.length y.length
  let xp := padZeros x M
  let yp := padZeros y M
  let corr := corrFull xp yp M
  let lags := xcorrLags M
  let scaled :=
    match scale with
    | Scale.none => corr
    | Scale.biased => corr.map (fun c => c / (M : ℚ))
    | Scale.unbiased =>
        List.zipWith (fun c (lag : ℤ) => c / ((M : ℚ) - (lag.natAbs : ℚ))) corr lags
  (scaled, lags)

/-- A `Speckle` as stored by the source: the intensity sequence and the
three derived fields. `timeFAKFsq` holds the square of the source's
`timeFAKF` (the source applies an element-wise square root on top). -/
structure Speckle where
  timeInt : List ℚ
  timeAvg : ℚ
  timeIAKF : List ℚ
  timeFAKFsq : List ℚ
deriving DecidableEq

/-- `Speckle.calcTimeAverage`: `np.sum(self.timeInt) / len(self.timeInt)`. -/
def calcTimeAverage (timeInt : List ℚ) : ℚ :=
  timeInt.sum / (timeInt.length : ℚ)

/-- `Speckle.calcTimeIAKF`: the unbiased autocorrelation of the intensity
sequence, sliced to the non-negative lags
(python slice `[(M-1):(2*M)]` of the length `2*M-1` array, i.e. drop
`M-1` then take at most `M+1`), divided by `timeAvg ** 2`. -/
def calcTimeIAKF (timeInt : List ℚ) (timeAvg : ℚ) : List ℚ :=
  let M := timeInt.length
  let unnAKF := (xcorr timeInt timeInt Scale.unbiased).fst
  ((unnAKF.drop (M - 1)).take (M + 1)).map (fun c => c / timeAvg ^ 2)

/-- `Speckle.calcTimeFAKF` without the outer square root:
`abs((timeIAKF - 1) / (timeIAKF[0] - 1))`. The source has no guard on
the denominator `timeIAKF[0] - 1`. -/
def calcTimeFAKFsq (timeIAKF : List ℚ) : List ℚ :=
  timeIAKF.map (fun v => |(v - 1) / (timeIAKF.getD 0 0 - 1)|)

/-- `Speckle.updateSpeckle`: recompute average, IAKF, FAKF in order,
each from the state left by the previous step. -/
def Speckle.updateSpeckle (s : Speckle) : Speckle :=
  let s1 := { s with timeAvg := calcTimeAverage s.timeInt }
  let s2 := { s1 with timeIAKF := calcTimeIAKF s1.timeInt s1.timeAvg }
  { s2 with timeFAKFsq := calcTimeFAKFsq s2.timeIAKF }

/-- `Speckle.__init__`: store the intensity sequence and run
`updateSpeckle`. -/
def Speckle.create (timeInt : List ℚ) : Speckle :=
  Speckle.updateSpeckle { timeInt := timeInt, timeAvg := 0, timeIAKF := [], timeFAKFsq := [] }

/-- `Speckle.addInt`: the source converts the argument and evaluates
`np.concatenate((self.timeInt, timeInt))` but never assigns the result,
so the stored sequence is unchanged; it then runs `updateSpeckle` when
`update` is true. On a conversion failure it prints a warning and
returns normally (no exception); a type-correct embedding has no failing
inputs, so only the successful path appears. -/
def Speckle.addInt (s : Speckle) (timeInt : List ℚ) (update : Bool) : Speckle :=
  let _ := timeInt
  if update then s.updateSpeckle else s

/-! ### Basic lemmas about the correlation kernel -/

theorem getQ_natCast (l : List ℚ) (n : ℕ) : getQ l (n : ℤ) = l.getD n 0 := by
  unfold getQ
  by_cases h : n < l.length
  · rw [if_pos ⟨Int.natCast_nonneg n, by exact_mod_cast h⟩]
    simp
  · rw [if_neg (by push_neg; intro _; exact_mod_cast not_lt.mp h)]
    rw [List.getD_eq_default _ _ (not_lt.mp h)]

theorem padZeros_self (l : List ℚ) : padZeros l l.length = l := by
  simp [padZeros]

theorem sum_range_getD (f : ℚ → ℚ) :
    ∀ l : List ℚ, ∑ n ∈ Finset.range l.length, f (l.getD n 0) = (l.map f).sum
  | [] => by simp
  | a :: t => by
    rw [List.length_cons, Finset.sum_range_succ']
    simp only [List.getD_cons_succ, List.getD_cons_zero, List.map_cons, List.sum_cons]
    rw [sum_range_getD f t]
    ring

theorem corrFull_length (x y : List ℚ) (M : ℕ) : (corrFull x y M).length = 2 * M - 1 := by
  simp [corrFull]

theorem xcorrLags_length (M : ℕ) : (xcorrLags M).length = 2 * M - 1 := by
  simp [xcorrLags]

theorem corrFull_getD_mid (x y : List ℚ) (M : ℕ) (hM : 1 ≤ M) :
    (corrFull x y M).getD (M - 1) 0 = ∑ n ∈ Finset.range M, getQ x (n : ℤ) * getQ y (n : ℤ) := by
  have hlt : M - 1 < 2 * M - 1 := by omega
  have harg : ∀ n : ℕ, (n : ℤ) + ((M - 1 : ℕ) : ℤ) - ((M : ℤ) - 1) = (n : ℤ) := by
    intro n
    have : ((M - 1 : ℕ) : ℤ) = (M : ℤ) - 1 := by
      rw [Nat.cast_sub hM]; norm_num
    rw [this]; ring
  unfold corrFull
  rw [List.getD_eq_getElem _ _ (by simpa using hlt)]
  simp only [List.getElem_map, List.getElem_range, harg]

theorem corrFull_self_mid (l : List ℚ) (hM : 1 ≤ l.length) :
    (corrFull l l l.length).getD (l.length - 1) 0 = (l.map (fun v => v ^ 2)).sum := by
  rw [corrFull_getD_mid l l l.length hM]
  calc ∑ n ∈ Finset.range l.length, getQ l (n : ℤ) * getQ l (n : ℤ)
      = ∑ n ∈ Finset.range l.length, (fun v => v ^ 2) (l.getD n 0) := by
        refine Finset.sum_congr rfl fun n _ => ?_
        rw [getQ_natCast]; ring
    _ = (l.map (fun v => v ^ 2)).sum := sum_range_getD (fun v => v ^ 2) l

theorem xcorr_unbiased_self_fst (l : List ℚ) :
    (xcorr l l Scale.unbiased).fst
      = List.zipWith (fun c lag => c / ((l.length : ℚ) - (lag.natAbs : ℚ)))
          (corrFull l l l.length) (xcorrLags l.length) := by
  simp [xcorr, padZeros_self]

theorem xcorr_unbiased_self_length (l : List ℚ) :
    (xcorr l l Scale.unbiased).fst.length = 2 * l.length - 1 := by
  rw [xcorr_unbiased_self_fst, List.length_zipWith, corrFull_length, xcorrLags_length, min_self]

theorem xcorrLags_getD_mid (M : ℕ) (hM : 1 ≤ M) : (xcorrLags M).getD (M - 1) 0 = 0 := by
  have hlt : M - 1 < 2 * M - 1 := by omega
  unfold xcorrLags
  rw [List.getD_eq_getElem _ _ (by simpa using hlt), List.getElem_map, List.getElem_range]
  have hc : ((M - 1 : ℕ) : ℤ) = (M : ℤ) - 1 := by
    rw [Nat.cast_sub hM]; norm_num
  rw [hc]; ring

theorem calcTimeIAKF_getD_zero (l : List ℚ) (hM : 1 ≤ l.length) (avg : ℚ) :
    (calcTimeIAKF l avg).getD 0 0
      = ((l.map (fun v => v ^ 2)).sum / (l.length : ℚ)) / avg ^ 2 := by
  have hulen : (xcorr l l Scale.unbiased).fst.length = 2 * l.length - 1 :=
    xcorr_unbiased_self_length l
  have hdlen : ((xcorr l l Scale.unbiased).fst.drop (l.length - 1)).length = l.length := by
    rw [List.length_drop, hulen]; omega
  have htlen :
      (((xcorr l l Scale.unbiased).fst.drop (l.length - 1)).take (l.length + 1)).length
        = l.length := by
    rw [List.length_take, hdlen]; omega
  unfold calcTimeIAKF
  rw [List.getD_eq_getElem _ _ (by rw [List.length_map, htlen]; omega)]
  simp only [List.getElem_map, List.getElem_take, List.getElem_drop, Nat.add_zero]
  rw [← List.getD_eq_getElem ((xcorr l l Scale.unbiased).fst) (0 : ℚ) (by omega)]
  have hmid : ((xcorr l l Scale.unbiased).fst).getD (l.length - 1) 0 =
      (l.map (fun v => v ^ 2)).sum / (l.length : ℚ) := by
    rw [xcorr_unbiased_self_fst]
    rw [List.getD_eq_getElem _ _ (by
      rw [List.length_zipWith, corrFull_length, xcorrLags_length, min_self]; omega)]
    simp only [List.getElem_zipWith]
    rw [← List.getD_eq_getElem (corrFull l l l.length) (0 : ℚ) (by rw [corrFull_length]; omega)]
    rw [← List.getD_eq_getElem (xcorrLags l.length) (0 : ℤ) (by rw [xcorrLags_length]; omega)]
    rw [corrFull_self_mid l hM, xcorrLags_getD_mid l.length hM]
    norm_num
  rw [hmid]

/-! ### Claim theorems: Speckle-level properties -/

/-- C1 counterexample: for the non-degenerate sequence `[0, 3]` the
derived IAKF at lag 0 equals `2`, not `1` — far beyond any
floating-point tolerance, refuting that `timeIAKF[0] = 1` holds for
every non-degenerate input. -/
theorem timeIAKF_lag0_counterexample :
    (Speckle.create [0, 3]).timeIAKF.getD 0 0 = 2 ∧ (2 : ℚ) ≠ 1 := by
  have h : (Speckle.create [0, 3]).timeIAKF = [2, 0] := by
    show calcTimeIAKF [0, 3] (calcTimeAverage [0, 3]) = [2, 0]
    simp [calcTimeIAKF, calcTimeAverage, xcorr, corrFull, xcorrLags, padZeros, getQ,
      Finset.sum_range_succ, List.range_succ]
    norm_num
  rw [h]
  exact ⟨rfl, by norm_num⟩

/-- C1 (amended): for a sequence of length at least 2 with nonzero sum,
`timeIAKF[0]` equals `N * Σ xᵢ² / (Σ xᵢ)²`, which is at least `1`
(with equality exactly for constant sequences, by Cauchy–Schwarz);
it is not `1` in general. -/
theorem timeIAKF_lag0_value (l : List ℚ) (h2 : 2 ≤ l.length) (hs : l.sum ≠ 0) :
    (Speckle.create l).timeIAKF.getD 0 0
        = (l.length : ℚ) * (l.map (fun v => v ^ 2)).sum / l.sum ^ 2
    ∧ 1 ≤ (Speckle.create l).timeIAKF.getD 0 0 := by
  have hM : 1 ≤ l.length := by omega
  have hlen : (0 : ℚ) < (l.length : ℚ) := by exact_mod_cast Nat.lt_of_lt_of_le Nat.zero_lt_one hM
  have hMne : (l.length : ℚ) ≠ 0 := ne_of_gt hlen
  have hcreate : (Speckle.create l).timeIAKF = calcTimeIAKF l (calcTimeAverage l) := rfl
  have hval : (Speckle.create l).timeIAKF.getD 0 0
      = (l.length : ℚ) * (l.map (fun v => v ^ 2)).sum / l.sum ^ 2 := by
    rw [hcreate, calcTimeIAKF_getD_zero l hM, calcTimeAverage]
    field_simp
    ring
  refine ⟨hval, ?_⟩
  rw [hval]
  have hT2 : (0 : ℚ) < l.sum ^ 2 := pow_two_pos_of_ne_zero hs
  rw [one_le_div hT2]
  have hcs := sq_sum_le_card_mul_sum_sq (s := Finset.range l.length)
    (f := fun n => l.getD n 0)
  rw [Finset.card_range] at hcs
  have hsum : ∑ n ∈ Finset.range l.length, l.getD n 0 = l.sum := by
    simpa using sum_range_getD (fun v => v) l
  have hsumsq : ∑ n ∈ Finset.range l.length, l.getD n 0 ^ 2
      = (l.map (fun v => v ^ 2)).sum := sum_range_getD (fun v => v ^ 2) l
  rw [hsum, hsumsq] at hcs
  exact hcs

/-- Witness for C1 (amended), at the concrete sequence `[1, 2]`. -/
theorem timeIAKF_lag0_value_witness :
    (2 ≤ ([1, 2] : List ℚ).length ∧ ([1, 2] : List ℚ).sum ≠ 0)
    ∧ ((Speckle.create [1, 2]).timeIAKF.getD 0 0
        = (([1, 2] : List ℚ).length : ℚ) * (([1, 2] : List ℚ).map (fun v => v ^ 2)).sum
            / ([1, 2] : List ℚ).sum ^ 2
      ∧ 1 ≤ (Speckle.create [1, 2]).timeIAKF.getD 0 0) :=
  ⟨⟨by decide, by norm_num⟩, timeIAKF_lag0_value [1, 2] (by decide) (by norm_num)⟩

/-- C2: evaluating `addInt` at a concrete input shows the source bug:
the concatenation `np.concatenate((self.timeInt, timeInt))` is computed
but never stored, so appending `[3]` to a speckle holding `[1, 2]`
leaves the stored sequence `[1, 2]`, not `[1, 2, 3]`. -/
theorem addInt_discards_argument :
    ((Speckle.create [1, 2]).addInt [3] true).timeInt = [1, 2]
    ∧ ((Speckle.create [1, 2]).addInt [3] true).timeInt ≠ [1, 2, 3] := by
  refine ⟨rfl, ?_⟩
  rw [show ((Speckle.create [1, 2]).addInt [3] true).timeInt = [1, 2] from rfl]
  simp

/-- C3: for the exactly-constant sequence `[5, 5]`, construction yields
`timeIAKF = [1, 1]`, so the FAKF normalizer `timeIAKF[0] - 1` is `0`:
the source divides by zero (producing NaN in floating point) instead of
failing with a `DegenerateSequence` error. In `ℚ` the division by the
zero denominator collapses `timeFAKFsq` to `[0, 0]`. -/
theorem constant_sequence_degenerate_denominator :
    (Speckle.create [5, 5]).timeIAKF.getD 0 0 - 1 = 0
    ∧ (Speckle.create [5, 5]).timeFAKFsq = [0, 0] := by
  have hIAKF : (Speckle.create [5, 5]).timeIAKF = [1, 1] := by
    show calcTimeIAKF [5, 5] (calcTimeAverage [5, 5]) = [1, 1]
    simp [calcTimeIAKF, calcTimeAverage, xcorr, corrFull, xcorrLags, padZeros, getQ,
      Finset.sum_range_succ, List.range_succ]
    norm_num
  constructor
  · rw [hIAKF]
    norm_num
  · show calcTimeFAKFsq ((Speckle.create [5, 5]).timeIAKF) = [0, 0]
    rw [hIAKF]
    norm_num [calcTimeFAKFsq]

/-- C8: the autocorrelation of a non-empty sequence under scaling mode
`none` has its lag-0 (middle, index `M-1`) entry equal to `Σ xᵢ²`. -/
theorem xcorr_none_self_lag0 (x : List ℚ) (h : x ≠ []) :
    (xcorr x x Scale.none).fst.getD (x.length - 1) 0 = (x.map (fun v => v ^ 2)).sum := by
  have hM : 1 ≤ x.length := List.length_pos.mpr h
  have hfst : (xcorr x x Scale.none).fst = corrFull x x x.length := by
    simp [xcorr, padZeros_self]
  rw [hfst]
  exact corrFull_self_mid x hM

/-- Witness for C8 at `x = [1, 2]` (lag-0 entry `5 = 1² + 2²`). -/
theorem xcorr_none_self_lag0_witness :
    (([1, 2] : List ℚ) ≠ [])
    ∧ (xcorr [1, 2] [1, 2] Scale.none).fst.getD (([1, 2] : List ℚ).length - 1) 0
        = (([1, 2] : List ℚ).map (fun v => v ^ 2)).sum :=
  ⟨by decide, xcorr_none_self_lag0 [1, 2] (by decide)⟩

/-- C10: for non-empty inputs, every lag produced by `xcorr` satisfies
`|lag| ≤ M - 1`, so the unbiased scaling divisor `M - |lag|` is at least
`1` and the unbiased division never divides by zero. -/
theorem xcorr_unbiased_divisor_ge_one (x y : List ℚ) (hx : x ≠ []) (_hy : y ≠ []) :
    ∀ lag ∈ (xcorr x y Scale.unbiased).snd,
      1 ≤ (max x.length y.length : ℤ) - (lag.natAbs : ℤ) := by
  intro lag hmem
  have hsnd : (xcorr x y Scale.unbiased).snd = xcorrLags (max x.length y.length) := rfl
  rw [hsnd] at hmem
  unfold xcorrLags at hmem
  rw [List.mem_map] at hmem
  obtain ⟨j, hj, rfl⟩ := hmem
  rw [List.mem_range] at hj
  have hxpos : 0 < x.length := List.length_pos.mpr hx
  have hM : 1 ≤ max x.length y.length := le_trans hxpos (le_max_left _ _)
  omega

/-- Witness for C10 at `x = [1]`, `y = [2, 3]`, lag `1`. -/
theorem xcorr_unbiased_divisor_ge_one_witness :
    (([1] : List ℚ) ≠ [] ∧ ([2, 3] : List ℚ) ≠ [])
    ∧ 1 ≤ (max ([1] : List ℚ).length ([2, 3] : List ℚ).length : ℤ) - ((1 : ℤ).natAbs : ℤ) :=
  ⟨⟨by decide, by decide⟩,
    xcorr_unbiased_divisor_ge_one [1] [2, 3] (by decide) (by decide) 1 (by decide)⟩

/-! ### The Ensemble -/

/-- An `Ensemble` as stored by the source. The source initializes the
derived fields to the integer sentinel `0`; the list-valued sentinels are
modelled as `[]` (and the scalar ones as `0`), which the claims never
observe. `ensembleFAKFsq` carries the square of the source's
`ensembleFAKF`, as for `Speckle`. -/
structure Ensemble where
  speckles : List Speckle
  numSpeckles : ℕ
  ensembleIAKF : List ℚ
  ensembleFAKFsq : List ℚ
  ensembleAvg : ℚ
  timeKey : List ℚ
deriving DecidableEq

/-- `Ensemble.__init__(self, speckles=[])`: the constructor argument is
never read; the member list always starts empty and `numSpeckles = 0`. -/
def Ensemble.init (speckles : List Speckle) : Ensemble :=
  let _ := speckles
  { speckles := [], numSpeckles := 0, ensembleIAKF := [], ensembleFAKFsq := [],
    ensembleAvg := 0, timeKey := [] }

/-- The state update of a successful `Ensemble.addSpeckle` call: append
the given speckles and refresh `numSpeckles = len(self.speckles)`. -/
def Ensemble.appendSpeckles (e : Ensemble) (new : List Speckle) : Ensemble :=
  { e with speckles := e.speckles ++ new, numSpeckles := (e.speckles ++ new).length }

/-- `Ensemble.addSpeckle`: the source probes `speckles[0]` inside
`try ... except TypeError` to wrap a single speckle into a list.
A single speckle raises TypeError and is wrapped (the embedding takes
the list form directly), but an EMPTY list raises IndexError, which the
`except TypeError` clause does not catch: `addSpeckle([])` crashes. -/
def Ensemble.addSpeckle (e : Ensemble) (new : List Speckle) : Except String Ensemble :=
  match new with
  | [] => Except.error "IndexError: list index out of range"
  | _ :: _ => Except.ok (e.appendSpeckles new)

theorem addSpeckle_ok (e : Ensemble) (new : List Speckle) (h : new ≠ []) :
    e.addSpeckle new = Except.ok (e.appendSpeckles new) := by
  match new, h with
  | s :: rest, _ => rfl

theorem addSpeckle_nil (e : Ensemble) :
    e.addSpeckle [] = Except.error "IndexError: list index out of range" := rfl

/-- `Ensemble.calcEnsembleAvg`: mean of the members' `timeAvg`. -/
def calcEnsembleAvg (speckles : List Speckle) : ℚ :=
  (speckles.map (fun s => s.timeAvg)).sum / (speckles.length : ℚ)

/-- One speckle's contribution `speck.timeIAKF * speck.timeAvg**2` to the
ensemble IAKF accumulator. -/
def speckleIAKFterm (s : Speckle) : List ℚ :=
  s.timeIAKF.map (fun v => v * s.timeAvg ^ 2)

/-- The accumulation loop of `calcEnsembleIAKF`: the first iteration
initializes `eIAKF` (the source catches the unbound-variable error), the
rest add element-wise. On an empty member list the source raises; the
claims only use non-empty lists, where this function is faithful. -/
def eIAKFsum : List Speckle → List ℚ
  | [] => []
  | s :: rest =>
      rest.foldl (fun acc t => List.zipWith (fun u v => u + v) acc (speckleIAKFterm t))
        (speckleIAKFterm s)

/-- `Ensemble.calcEnsembleIAKF`: `eIAKF / (len(speckles) * ensembleAvg**2)`. -/
def calcEnsembleIAKF (speckles : List Speckle) (ensembleAvg : ℚ) : List ℚ :=
  (eIAKFsum speckles).map (fun v => v / ((speckles.length : ℚ) * ensembleAvg ^ 2))

/-- `Ensemble.calcEnsembleFAKF` without the outer square root. -/
def calcEnsembleFAKFsq (ensembleIAKF : List ℚ) : List ℚ :=
  ensembleIAKF.map (fun v => |(v - 1) / (ensembleIAKF.getD 0 0 - 1)|)

/-- `Ensemble.updateEnsemble`: average, then IAKF (using the fresh
average), then FAKF (using the fresh IAKF). -/
def Ensemble.updateEnsemble (e : Ensemble) : Ensemble :=
  let e1 := { e with ensembleAvg := calcEnsembleAvg e.speckles }
  let e2 := { e1 with ensembleIAKF := calcEnsembleIAKF e1.speckles e1.ensembleAvg }
  { e2 with ensembleFAKFsq := calcEnsembleFAKFsq e2.ensembleIAKF }

/-! ### Lemmas for the ensemble aggregation -/

theorem create_timeIAKF_length (l : List ℚ) :
    (Speckle.create l).timeIAKF.length = l.length := by
  show (calcTimeIAKF l (calcTimeAverage l)).length = l.length
  unfold calcTimeIAKF
  rw [List.length_map, List.length_take, List.length_drop, xcorr_unbiased_self_length]
  omega

theorem foldl_zipWith_add_length {α : Type} (f : α → List ℚ) (ts : List α) (acc : List ℚ)
    (N : ℕ) (hacc : acc.length = N) (hts : ∀ t ∈ ts, (f t).length = N) :
    (ts.foldl (fun a t => List.zipWith (fun u v => u + v) a (f t)) acc).length = N := by
  induction ts generalizing acc with
  | nil => simpa using hacc
  | cons t ts ih =>
    rw [List.foldl_cons]
    exact ih _ (by rw [List.length_zipWith, hacc, hts t (by simp), min_self])
      (fun u hu => hts u (by simp [hu]))

theorem foldl_zipWith_add_getD {α : Type} (f : α → List ℚ) (ts : List α) (acc : List ℚ)
    (N : ℕ) (hacc : acc.length = N) (hts : ∀ t ∈ ts, (f t).length = N) (k : ℕ) (hk : k < N) :
    (ts.foldl (fun a t => List.zipWith (fun u v => u + v) a (f t)) acc).getD k 0
      = acc.getD k 0 + (ts.map (fun t => (f t).getD k 0)).sum := by
  induction ts generalizing acc with
  | nil => simp
  | cons t ts ih =>
    have ht : (f t).length = N := hts t (by simp)
    have hlen : (List.zipWith (fun u v => u + v) acc (f t)).length = N := by
      rw [List.length_zipWith, hacc, ht, min_self]
    rw [List.foldl_cons, ih _ hlen (fun u hu => hts u (by simp [hu]))]
    have hzip : (List.zipWith (fun u v => u + v) acc (f t)).getD k 0
        = acc.getD k 0 + (f t).getD k 0 := by
      rw [List.getD_eq_getElem _ _ (by rw [hlen]; exact hk), List.getElem_zipWith,
        ← List.getD_eq_getElem acc 0 (by rw [hacc]; exact hk),
        ← List.getD_eq_getElem (f t) 0 (by rw [ht]; exact hk)]
    rw [hzip, List.map_cons, List.sum_cons]
    ring

theorem speckleIAKFterm_getD (t : Speckle) (k : ℕ) (hk : k < t.timeIAKF.length) :
    (speckleIAKFterm t).getD k 0 = t.timeIAKF.getD k 0 * t.timeAvg ^ 2 := by
  unfold speckleIAKFterm
  rw [List.getD_eq_getElem _ _ (by rw [List.length_map]; exact hk), List.getElem_map,
    ← List.getD_eq_getElem _ 0 hk]

theorem eIAKFsum_length (l : List Speckle) (N : ℕ)
    (hN : ∀ s ∈ l, s.timeIAKF.length = N) (hne : l ≠ []) :
    (eIAKFsum l).length = N := by
  match l, hne with
  | s :: rest, _ =>
    show (rest.foldl (fun acc t => List.zipWith (fun u v => u + v) acc (speckleIAKFterm t))
        (speckleIAKFterm s)).length = N
    exact foldl_zipWith_add_length speckleIAKFterm rest (speckleIAKFterm s) N
      (by rw [speckleIAKFterm, List.length_map]; exact hN s (by simp))
      (fun t ht => by rw [speckleIAKFterm, List.length_map]; exact hN t (by simp [ht]))

theorem eIAKFsum_getD (l : List Speckle) (N : ℕ) (hne : l ≠ [])
    (hN : ∀ s ∈ l, s.timeIAKF.length = N) (k : ℕ) (hk : k < N) :
    (eIAKFsum l).getD k 0
      = (l.map (fun s => s.timeIAKF.getD k 0 * s.timeAvg ^ 2)).sum := by
  match l, hne with
  | s :: rest, _ =>
    show (rest.foldl (fun acc t => List.zipWith (fun u v => u + v) acc (speckleIAKFterm t))
        (speckleIAKFterm s)).getD k 0 = _
    rw [foldl_zipWith_add_getD speckleIAKFterm rest (speckleIAKFterm s) N
      (by rw [speckleIAKFterm, List.length_map]; exact hN s (by simp))
      (fun t ht => by
        rw [speckleIAKFterm, List.length_map]
        exact hN t (List.mem_cons_of_mem s ht)) k hk]
    rw [speckleIAKFterm_getD s k (by rw [hN s (by simp)]; exact hk)]
    rw [List.map_cons, List.sum_cons]
    exact congrArg (fun z => s.timeIAKF.getD k 0 * s.timeAvg ^ 2 + z)
      (congrArg List.sum (List.map_congr_left
        (fun t ht => speckleIAKFterm_getD t k
          (by rw [hN t (List.mem_cons_of_mem s ht)]; exact hk))))

/-! ### Claim theorems: Ensemble aggregation -/

/-- C9: `Ensemble.__init__` never reads its `speckles` constructor
argument: the member list is `[]` and `numSpeckles` is `0` for every
argument; members only enter via `addSpeckle`. -/
theorem ensemble_init_ignores_argument (speckles : List Speckle) :
    (Ensemble.init speckles).speckles = [] ∧ (Ensemble.init speckles).numSpeckles = 0 :=
  ⟨rfl, rfl⟩

/-- C4: for a non-empty ensemble whose members' IAKF sequences share
length `N`, after `updateEnsemble` the ensemble average is the
arithmetic mean of the members' `timeAvg`, and each `ensembleIAKF[k]`
equals `Σ_s IAKF_s[k]·timeAvg_s²` divided by
`numSpeckles · ensembleAvg²` (the source uses `len(self.speckles)`,
which equals `numSpeckles` for every ensemble built via `addSpeckle`). -/
theorem updateEnsemble_spec (e : Ensemble) (N : ℕ)
    (hne : e.speckles ≠ [])
    (hN : ∀ s ∈ e.speckles, s.timeIAKF.length = N) :
    e.updateEnsemble.ensembleAvg
        = (e.speckles.map (fun s => s.timeAvg)).sum / (e.speckles.length : ℚ)
    ∧ ∀ k, k < N →
        e.updateEnsemble.ensembleIAKF.getD k 0
          = (e.speckles.map (fun s => s.timeIAKF.getD k 0 * s.timeAvg ^ 2)).sum
            / ((e.speckles.length : ℚ) * e.updateEnsemble.ensembleAvg ^ 2) := by
  refine ⟨rfl, ?_⟩
  intro k hk
  have hlen : (eIAKFsum e.speckles).length = N := eIAKFsum_length e.speckles N hN hne
  have hmap : e.updateEnsemble.ensembleIAKF.getD k 0
      = (eIAKFsum e.speckles).getD k 0
        / ((e.speckles.length : ℚ) * (calcEnsembleAvg e.speckles) ^ 2) := by
    show (calcEnsembleIAKF e.speckles (calcEnsembleAvg e.speckles)).getD k 0 = _
    unfold calcEnsembleIAKF
    rw [List.getD_eq_getElem _ _ (by rw [List.length_map, hlen]; exact hk), List.getElem_map,
      ← List.getD_eq_getElem _ 0 (by rw [hlen]; exact hk)]
  rw [hmap, eIAKFsum_getD e.speckles N hne hN k hk]
  rfl

/-- Witness for C4 at the two-member ensemble built from the sequences
`[1, 2]` and `[2, 2]`, evaluated at lag `0`. -/
theorem updateEnsemble_spec_witness :
    ((Ensemble.init []).appendSpeckles [Speckle.create [1, 2], Speckle.create [2, 2]]).speckles ≠ []
    ∧ ((Ensemble.init []).appendSpeckles
        [Speckle.create [1, 2], Speckle.create [2, 2]]).updateEnsemble.ensembleAvg
      = ((((Ensemble.init []).appendSpeckles
            [Speckle.create [1, 2], Speckle.create [2, 2]]).speckles.map
          (fun s => s.timeAvg)).sum)
        / ((((Ensemble.init []).appendSpeckles
            [Speckle.create [1, 2], Speckle.create [2, 2]]).speckles.length : ℚ))
    ∧ ((Ensemble.init []).appendSpeckles
        [Speckle.create [1, 2], Speckle.create [2, 2]]).updateEnsemble.ensembleIAKF.getD 0 0
      = ((((Ensemble.init []).appendSpeckles
            [Speckle.create [1, 2], Speckle.create [2, 2]]).speckles.map
          (fun s => s.timeIAKF.getD 0 0 * s.timeAvg ^ 2)).sum)
        / ((((Ensemble.init []).appendSpeckles
              [Speckle.create [1, 2], Speckle.create [2, 2]]).speckles.length : ℚ)
            * ((Ensemble.init []).appendSpeckles
              [Speckle.create [1, 2], Speckle.create [2, 2]]).updateEnsemble.ensembleAvg ^ 2) := by
  have h := updateEnsemble_spec
    ((Ensemble.init []).appendSpeckles [Speckle.create [1, 2], Speckle.create [2, 2]]) 2
    (by simp [Ensemble.init, Ensemble.appendSpeckles])
    (by
      intro s hs
      have hs' : s ∈ [Speckle.create [1, 2], Speckle.create [2, 2]] := hs
      rcases List.mem_cons.mp hs' with rfl | hs2
      · rw [create_timeIAKF_length]; rfl
      · rcases List.mem_cons.mp hs2 with rfl | hs3
        · rw [create_timeIAKF_length]; rfl
        · exact absurd hs3 (List.not_mem_nil s))
  exact ⟨by simp [Ensemble.init, Ensemble.appendSpeckles], h.1, h.2 0 (by norm_num)⟩

/-! ### The time key -/

/-- The message of the ValueError raised by `createTimeKey` on a batch
count mismatch. -/
def lengthMismatchMsg : String :=
  "ValueError: Sum of images in numList not equal to total number of images from frames."

/-- One batch of the `createTimeKey` loop: starting from the running
total, the inner loop appends `total + step`, `total + 2*step`, ...,
`total + n*step` (exact in `ℚ`; the source accumulates in floating
point). -/
def batchKey (n : ℕ) (step total : ℚ) : List ℚ :=
  (List.range n).map (fun i : ℕ => total + ((i : ℚ) + 1) * step)

/-- The nested loop of `createTimeKey` over `(count, step)` batches,
threading the running total across batches. -/
def timeKeyAux : List (ℕ × ℚ) → ℚ → List ℚ
  | [], _ => []
  | (n, step) :: rest, total => batchKey n step total ++ timeKeyAux rest (total + n * step)

/-- `Ensemble.createTimeKey`. On an empty ensemble the source raises
IndexError reading `self.speckles[0]`. In `default` mode it returns the
unit-spaced key `[1, ..., N]` without any validation of the batch
arguments. Otherwise it raises the ValueError when `sum(numImList)`
differs from the member sequence length, and else walks the batches
accumulating the running total. The source indexes `timeStepList[k]`
and raises IndexError when `timeStepList` is shorter than `numImList`;
the embedding pairs the lists with `zip`, which agrees with the source
whenever `numImList.length ≤ timeStepList.length` (the theorems assume
this). The returned key is also stored on the ensemble by the source;
the claims only concern the returned value. -/
def Ensemble.createTimeKey (e : Ensemble) (numImList : List ℕ) (timeStepList : List ℚ)
    (default : Bool) : Except String (List ℚ) :=
  match e.speckles with
  | [] => Except.error "IndexError: list index out of range"
  | s0 :: _ =>
    if default then
      Except.ok ((List.range s0.timeInt.length).map (fun i : ℕ => (i : ℚ) + 1))
    else if numImList.sum ≠ s0.timeInt.length then
      Except.error lengthMismatchMsg
    else
      Except.ok (timeKeyAux (numImList.zip timeStepList) 0)

theorem batchKey_length (n : ℕ) (step total : ℚ) : (batchKey n step total).length = n := by
  simp [batchKey]

theorem timeKeyAux_length (ps : List (ℕ × ℚ)) (total : ℚ) :
    (timeKeyAux ps total).length = (ps.map Prod.fst).sum := by
  induction ps generalizing total with
  | nil => rfl
  | cons p rest ih =>
    cases p with
    | mk n step =>
      simp [timeKeyAux, batchKey_length, ih]

theorem batchKey_succ (n : ℕ) (step total : ℚ) :
    batchKey (n + 1) step total = (total + step) :: batchKey n step (total + step) := by
  unfold batchKey
  rw [List.range_succ_eq_map]
  rw [List.map_cons, List.map_map]
  refine congrArg₂ List.cons (by norm_num) ?_
  exact List.map_congr_left fun i _ => by
    simp only [Function.comp_apply]
    push_cast
    ring

theorem batchKey_chain_append (n : ℕ) (step total : ℚ) (hstep : 0 ≤ step) (rest : List ℚ)
    (hrest : List.Chain' (fun a b => a ≤ b) ((total + n * step) :: rest)) :
    List.Chain' (fun a b => a ≤ b) (total :: (batchKey n step total ++ rest)) := by
  induction n generalizing total with
  | zero =>
    simp only [batchKey, List.range_zero, List.map_nil, List.nil_append]
    simpa using hrest
  | succ n ih =>
    rw [batchKey_succ, List.cons_append, List.chain'_cons]
    refine ⟨by linarith, ?_⟩
    apply ih (total + step)
    have harith : total + step + (n : ℚ) * step = total + ((n : ℕ) + 1 : ℚ) * step := by
      ring
    rw [harith]
    have hcast : ((n : ℕ) + 1 : ℚ) = ((n + 1 : ℕ) : ℚ) := by norm_cast
    rw [hcast]
    exact hrest

theorem timeKeyAux_chain (ps : List (ℕ × ℚ)) (total : ℚ)
    (hpos : ∀ p ∈ ps, 0 ≤ p.snd) :
    List.Chain' (fun a b => a ≤ b) (total :: timeKeyAux ps total) := by
  induction ps generalizing total with
  | nil => simp [timeKeyAux]
  | cons p rest ih =>
    cases p with
    | mk n step =>
      show List.Chain' _ (total :: (batchKey n step total ++ timeKeyAux rest (total + n * step)))
      exact batchKey_chain_append n step total (hpos (n, step) (by simp)) _
        (ih (total + n * step) (fun q hq => hpos q (by simp [hq])))

/-! ### Claim theorems: the time key -/

/-- C7 counterexample: with a single member of sequence length 2,
default mode succeeds (returning `[1, 2]`) even though
`sum(frameCounts) = 5 ≠ 2` — so the function does not fail exactly when
the counts mismatch — and a negative time step produces the strictly
decreasing key `[-1, -2]`, refuting the unconditional non-decreasing
clause. -/
theorem createTimeKey_counterexample :
    ((Ensemble.init []).appendSpeckles [Speckle.create [1, 2]]).createTimeKey [5] [1] true
        = Except.ok [1, 2]
    ∧ ((Ensemble.init []).appendSpeckles [Speckle.create [1, 2]]).createTimeKey [2] [-1] false
        = Except.ok [-1, -2] := by
  have hti : (Speckle.create [1, 2]).timeInt = [1, 2] := rfl
  constructor
  · show Ensemble.createTimeKey _ [5] [1] true = _
    simp [Ensemble.createTimeKey, Ensemble.appendSpeckles, Ensemble.init, hti, List.range_succ]
    norm_num
  · show Ensemble.createTimeKey _ [2] [-1] false = _
    simp [Ensemble.createTimeKey, Ensemble.appendSpeckles, Ensemble.init, hti, timeKeyAux, batchKey,
      List.range_succ]
    norm_num

/-- C7 (amended): for a populated ensemble with head member sequence
length `N`: default mode always succeeds with `timeKey[i] = i + 1` and
never checks the batch counts; with `default = false` the call fails
with the length-mismatch ValueError exactly when `sum(numImList) ≠ N`,
and otherwise succeeds with a key of length `N` that is non-decreasing
provided every time step is nonnegative (a negative step produces a
decreasing key; the source does not validate signs). -/
theorem createTimeKey_spec (e : Ensemble) (s0 : Speckle) (rest : List Speckle)
    (numImList : List ℕ) (timeStepList : List ℚ)
    (hsp : e.speckles = s0 :: rest)
    (hlen : numImList.length ≤ timeStepList.length)
    (hpos : ∀ q ∈ timeStepList, 0 ≤ q) :
    (e.createTimeKey numImList timeStepList true
        = Except.ok ((List.range s0.timeInt.length).map (fun i : ℕ => (i : ℚ) + 1)))
    ∧ (numImList.sum ≠ s0.timeInt.length →
        e.createTimeKey numImList timeStepList false = Except.error lengthMismatchMsg)
    ∧ (numImList.sum = s0.timeInt.length →
        e.createTimeKey numImList timeStepList false
            = Except.ok (timeKeyAux (numImList.zip timeStepList) 0)
          ∧ (timeKeyAux (numImList.zip timeStepList) 0).length = s0.timeInt.length
          ∧ List.Chain' (fun a b => a ≤ b) (timeKeyAux (numImList.zip timeStepList) 0)) := by
  refine ⟨?_, ?_, ?_⟩
  · simp [Ensemble.createTimeKey, hsp]
  · intro hne
    simp [Ensemble.createTimeKey, hsp, hne]
  · intro heq
    refine ⟨?_, ?_, ?_⟩
    · simp [Ensemble.createTimeKey, hsp, heq]
    · rw [timeKeyAux_length, List.map_fst_zip _ _ hlen]
      exact heq
    · have h := timeKeyAux_chain (numImList.zip timeStepList) 0
        (fun q hq => by
          obtain ⟨a, b⟩ := q
          exact hpos b (List.of_mem_zip hq).2)
      exact h.tail

/-- Witness for C7 (amended) at the one-member ensemble over `[1, 2]`
with batch counts `[2]` and steps `[1]`. -/
theorem createTimeKey_spec_witness :
    (((Ensemble.init []).appendSpeckles [Speckle.create [1, 2]]).createTimeKey [2] [1] true
        = Except.ok ((List.range (Speckle.create [1, 2]).timeInt.length).map
            (fun i : ℕ => (i : ℚ) + 1)))
    ∧ (([2] : List ℕ).sum ≠ (Speckle.create [1, 2]).timeInt.length →
        ((Ensemble.init []).appendSpeckles [Speckle.create [1, 2]]).createTimeKey [2] [1] false
          = Except.error lengthMismatchMsg)
    ∧ (([2] : List ℕ).sum = (Speckle.create [1, 2]).timeInt.length →
        ((Ensemble.init []).appendSpeckles [Speckle.create [1, 2]]).createTimeKey [2] [1] false
            = Except.ok (timeKeyAux (([2] : List ℕ).zip [1]) 0)
          ∧ (timeKeyAux (([2] : List ℕ).zip [1]) 0).length
              = (Speckle.create [1, 2]).timeInt.length
          ∧ List.Chain' (fun a b => a ≤ b) (timeKeyAux (([2] : List ℕ).zip [1]) 0)) :=
  createTimeKey_spec ((Ensemble.init []).appendSpeckles [Speckle.create [1, 2]])
    (Speckle.create [1, 2]) [] [2] [1] rfl (by decide)
    (by
      intro q hq
      rw [List.mem_singleton] at hq
      rw [hq]
      norm_num)

/-! ### Extremal speckle selection -/

/-- The value produced by a ranking function: the source's `sortFunc`
returns either a numpy scalar (e.g. `Speckle.getTimeAverage`) or a
per-lag array (e.g. `Speckle.getTimeIAKF`). -/
inductive RankingVal where
  | scalar (q : ℚ)
  | seq (l : List ℚ)
deriving DecidableEq

/-- Subscripting a ranking value as in `sortFunc(x)[corrImg]`: indexing
a numpy scalar, or an array out of range, raises IndexError (`none`). -/
def subscriptKey (v : RankingVal) (i : ℕ) : Option ℚ :=
  match v with
  | RankingVal.scalar _ => Option.none
  | RankingVal.seq l => if i < l.length then Option.some (l.getD i 0) else Option.none

/-- Using a ranking value itself as the sort key, as the source's
IndexError fallback does: numpy scalars compare as numbers; arrays do
not admit the boolean comparison that sorting needs (the comparison
raises, `none`). -/
def scalarKey (v : RankingVal) : Option ℚ :=
  match v with
  | RankingVal.scalar q => Option.some q
  | RankingVal.seq _ => Option.none

/-- `speckles.sort(key=..., reverse=True)` of the source: a stable
descending sort by the key. Insertion sort with the relation
`key b ≤ key a` is descending and stable in the same sense as Python's
sort with `reverse=True`. -/
def extremeSort (speckles : List Speckle) (key : Speckle → Option ℚ) : List Speckle :=
  speckles.insertionSort (fun a b => (key b).getD 0 ≤ (key a).getD 0)

/-- Sorting guarded by key computation: Python computes all keys before
reordering, so a key failure (IndexError) leaves the list unchanged and
is reported (`none`) before any sort happens. -/
def sortWithKey (key : Speckle → Option ℚ) (speckles : List Speckle) :
    Option (List Speckle) :=
  if speckles.all (fun s => (key s).isSome) then Option.some (extremeSort speckles key)
  else Option.none

/-- The `extremeSpeckles` selection of `findExtremeSpeckles`:
`speckles[:m]` when `best`, plus `speckles[-m:]` when `worst` — the
latter being the whole list when `m = 0` (Python's `[-0:]` slice). -/
def fesSelect (sorted : List Speckle) (m : ℕ) (best worst : Bool) : List Speckle :=
  (if best then sorted.take m else [])
  ++ (if worst then (if m = 0 then sorted else sorted.drop (sorted.length - m)) else [])

/-- `Ensemble.findExtremeSpeckles(percent, corrImg, best, worst,
sortFunc)` of `msprocessing.py` (the revision that sorts with
`reverse=True`). `Except.error` models a raised exception;
`Except.ok Option.none` models the source printing
"Either fast or slow must be set to True!" and returning `None`;
`Except.ok (Option.some ens)` is the normal result.
`int(percent * numSpeckles)` is `floor` for the nonnegative fractions
at issue. Python's slice `speckles[:m]` is `take m`; `speckles[-m:]` is
the last `m` elements for `m > 0` (clamped like `drop (len - m)`), but
the WHOLE list when `m = 0`. The primary sort subscripts the ranking
value at `corrImg`; on IndexError the source re-sorts by the raw value,
which only succeeds for scalar values. The selected speckles are handed
to `addSpeckle`, whose `speckles[0]` probe raises an uncaught
IndexError when the selection is empty (best-only with a zero truncated
count). -/
def Ensemble.findExtremeSpeckles (e : Ensemble) (percent : ℚ) (corrImg : ℕ)
    (best worst : Bool) (sortFunc : Speckle → RankingVal) :
    Except String (Option Ensemble) :=
  match e.speckles with
  | [] => Except.error "IndexError: list index out of range"
  | s0 :: _ =>
    if corrImg > s0.timeInt.length then
      Except.error "IndexError: Correlation image higher than number of total images"
    else if !(best || worst) then
      Except.ok Option.none
    else
      let numExtremeSpeckles := (⌊percent * (e.numSpeckles : ℚ)⌋).toNat
      let sortResult :=
        match sortWithKey (fun s => subscriptKey (sortFunc s) corrImg) e.speckles with
        | Option.some sorted => Except.ok sorted
        | Option.none =>
            match sortWithKey (fun s => scalarKey (sortFunc s)) e.speckles with
            | Option.some sorted => Except.ok sorted
            | Option.none => Except.error "ValueError: ambiguous comparison of array keys"
      match sortResult with
      | Except.error msg => Except.error msg
      | Except.ok sorted =>
          let extremeSpeckles := fesSelect sorted numExtremeSpeckles best worst
          match (Ensemble.init []).addSpeckle extremeSpeckles with
          | Except.error msg => Except.error msg
          | Except.ok ens =>
              Except.ok (Option.some { ens.updateEnsemble with timeKey := e.timeKey })

/-- Whether a `findExtremeSpeckles` call produced an ensemble. -/
def fesProduced (r : Except String (Option Ensemble)) : Bool :=
  match r with
  | Except.ok (Option.some _) => true
  | _ => false

/-- The member list of a produced ensemble (`[]` otherwise). -/
def fesMembers (r : Except String (Option Ensemble)) : List Speckle :=
  match r with
  | Except.ok (Option.some ens) => ens.speckles
  | _ => []

/-- Unfolding of a guard-passing `findExtremeSpeckles` call: with a
populated ensemble, an in-range `corrImg`, at least one flag set and
every subscripted key defined, the call produces an ensemble whose
members are the truncated slices of the descending-sorted member list —
unless the selection is empty, in which case `addSpeckle([])` raises
IndexError. -/
theorem findExtremeSpeckles_eval (e : Ensemble) (s0 : Speckle) (rest : List Speckle)
    (percent : ℚ) (corrImg : ℕ) (best worst : Bool) (sortFunc : Speckle → RankingVal)
    (hsp : e.speckles = s0 :: rest)
    (hc : corrImg ≤ s0.timeInt.length)
    (hbw : (best || worst) = true)
    (hkeys : e.speckles.all (fun s => (subscriptKey (sortFunc s) corrImg).isSome) = true) :
    (fesSelect (extremeSort e.speckles (fun s => subscriptKey (sortFunc s) corrImg))
        (⌊percent * (e.numSpeckles : ℚ)⌋).toNat best worst ≠ [] →
      fesProduced (e.findExtremeSpeckles percent corrImg best worst sortFunc) = true
      ∧ fesMembers (e.findExtremeSpeckles percent corrImg best worst sortFunc)
          = fesSelect (extremeSort e.speckles (fun s => subscriptKey (sortFunc s) corrImg))
              (⌊percent * (e.numSpeckles : ℚ)⌋).toNat best worst)
    ∧ (fesSelect (extremeSort e.speckles (fun s => subscriptKey (sortFunc s) corrImg))
        (⌊percent * (e.numSpeckles : ℚ)⌋).toNat best worst = [] →
      e.findExtremeSpeckles percent corrImg best worst sortFunc
        = Except.error "IndexError: list index out of range") := by
  have hguard : ¬ (corrImg > s0.timeInt.length) := Nat.not_lt.mpr hc
  have hkeys' : (subscriptKey (sortFunc s0) corrImg).isSome = true ∧
      ∀ x ∈ rest, (subscriptKey (sortFunc x) corrImg).isSome = true := by
    rw [hsp] at hkeys
    simpa [List.all_cons, List.all_eq_true] using hkeys
  have hcond : (∀ x ∈ rest, (subscriptKey (sortFunc x) corrImg).isSome = true) = True :=
    eq_true hkeys'.2
  constructor
  · intro hsel
    rw [hsp] at hsel
    constructor
    · simp [Ensemble.findExtremeSpeckles, hsp, hguard, hbw, sortWithKey, hkeys'.1, hcond,
        addSpeckle_ok _ _ hsel, Ensemble.appendSpeckles, Ensemble.updateEnsemble,
        Ensemble.init, fesProduced]
    · simp [Ensemble.findExtremeSpeckles, hsp, hguard, hbw, sortWithKey, hkeys'.1, hcond,
        addSpeckle_ok _ _ hsel, Ensemble.appendSpeckles, Ensemble.updateEnsemble,
        Ensemble.init, fesMembers]
  · intro hsel
    rw [hsp] at hsel
    simp [Ensemble.findExtremeSpeckles, hsp, hguard, hbw, sortWithKey, hkeys'.1, hcond,
      hsel, addSpeckle_nil]

/-! ### Claim theorems: extremal speckle selection -/

/-- C5 counterexample: for three members with distinct ranking values,
`fraction = 1/2` and only `best` requested, the source takes
`int(0.5 * 3) = 1` speckle from the top — the floor, not the ceiling
`⌈0.5 * 3⌉ = 2` that the claim asserts. -/
theorem findExtremeSpeckles_counterexample :
    (fesMembers (((Ensemble.init []).appendSpeckles
        [Speckle.create [0, 3], Speckle.create [1, 2],
          Speckle.create [2, 2]]).findExtremeSpeckles
        (1/2) 0 true false (fun s => RankingVal.seq s.timeIAKF))).length = 1
    ∧ (⌈(1/2 : ℚ) * 3⌉ : ℤ) = 2 := by
  constructor
  · have h := findExtremeSpeckles_eval
      ((Ensemble.init []).appendSpeckles
        [Speckle.create [0, 3], Speckle.create [1, 2], Speckle.create [2, 2]])
      (Speckle.create [0, 3]) [Speckle.create [1, 2], Speckle.create [2, 2]]
      (1/2) 0 true false (fun s => RankingVal.seq s.timeIAKF)
      rfl (Nat.zero_le _) rfl
      (by
        rw [List.all_eq_true]
        intro x hx
        have hx' : x ∈ [Speckle.create [0, 3], Speckle.create [1, 2],
            Speckle.create [2, 2]] := hx
        simp only [List.mem_cons, List.not_mem_nil, or_false] at hx'
        rcases hx' with rfl | rfl | rfl
        all_goals simp [subscriptKey, create_timeIAKF_length])
    have hnum : (((Ensemble.init []).appendSpeckles
        [Speckle.create [0, 3], Speckle.create [1, 2],
          Speckle.create [2, 2]]).numSpeckles) = 3 := rfl
    have hfloor : (⌊(1/2 : ℚ) * ((3 : ℕ) : ℚ)⌋).toNat = 1 := by
      have h31 : ⌊(1/2 : ℚ) * ((3 : ℕ) : ℚ)⌋ = 1 := by
        rw [Int.floor_eq_iff]
        constructor
        · norm_num
        · norm_num
      rw [h31]
      rfl
    rw [hnum] at h
    rw [hfloor] at h
    have hsl : (extremeSort
        (((Ensemble.init []).appendSpeckles
          [Speckle.create [0, 3], Speckle.create [1, 2],
            Speckle.create [2, 2]]).speckles)
        (fun s => subscriptKey (RankingVal.seq s.timeIAKF) 0)).length = 3 := by
      rw [extremeSort, (List.perm_insertionSort _ _).length_eq]
      rfl
    have hselne : fesSelect (extremeSort
        (((Ensemble.init []).appendSpeckles
          [Speckle.create [0, 3], Speckle.create [1, 2],
            Speckle.create [2, 2]]).speckles)
        (fun s => subscriptKey (RankingVal.seq s.timeIAKF) 0)) 1 true false ≠ [] := by
      have hlen : (fesSelect (extremeSort
          (((Ensemble.init []).appendSpeckles
            [Speckle.create [0, 3], Speckle.create [1, 2],
              Speckle.create [2, 2]]).speckles)
          (fun s => subscriptKey (RankingVal.seq s.timeIAKF) 0)) 1 true false).length = 1 := by
        simp [fesSelect, hsl]
      intro hcon
      rw [hcon] at hlen
      simp at hlen
    have hres := (h.1 hselne).2
    rw [hres]
    simp [fesSelect, hsl]
  · have : (⌈(1/2 : ℚ) * 3⌉ : ℤ) = 2 := by
      rw [Int.ceil_eq_iff]
      norm_num
    exact this

/-- C5 (amended): with a populated ensemble, an in-range lag index, at
least one flag set, and a ranking function whose subscripted values are
all defined, `findExtremeSpeckles` ranks the members in stable
descending order of the ranking value (the sorted list is a permutation
of the members, sorted so the highest key comes first) and, whenever
the resulting selection is non-empty, produces an ensemble containing
the floor-truncated `int(fraction * numSpeckles)` top members when
`best` is set, plus the bottom that many members when `worst` is set —
with the quirk that a zero truncated count makes the `worst` slice
`[-0:]` degenerate to the whole sorted list. When the selection is
empty (best-only with zero truncated count), the `speckles[0]` probe in
`addSpeckle([])` raises an uncaught IndexError instead of returning an
ensemble. -/
theorem findExtremeSpeckles_spec (e : Ensemble) (s0 : Speckle) (rest : List Speckle)
    (percent : ℚ) (corrImg : ℕ) (best worst : Bool) (sortFunc : Speckle → RankingVal)
    (hsp : e.speckles = s0 :: rest)
    (hc : corrImg ≤ s0.timeInt.length)
    (hbw : (best || worst) = true)
    (hkeys : e.speckles.all (fun s => (subscriptKey (sortFunc s) corrImg).isSome) = true) :
    (extremeSort e.speckles (fun s => subscriptKey (sortFunc s) corrImg)).Perm e.speckles
    ∧ List.Sorted
        (fun a b => (subscriptKey (sortFunc b) corrImg).getD 0
          ≤ (subscriptKey (sortFunc a) corrImg).getD 0)
        (extremeSort e.speckles (fun s => subscriptKey (sortFunc s) corrImg))
    ∧ (fesSelect (extremeSort e.speckles (fun s => subscriptKey (sortFunc s) corrImg))
          (⌊percent * (e.numSpeckles : ℚ)⌋).toNat best worst ≠ [] →
        fesProduced (e.findExtremeSpeckles percent corrImg best worst sortFunc) = true
        ∧ fesMembers (e.findExtremeSpeckles percent corrImg best worst sortFunc)
            = fesSelect
                (extremeSort e.speckles (fun s => subscriptKey (sortFunc s) corrImg))
                (⌊percent * (e.numSpeckles : ℚ)⌋).toNat best worst)
    ∧ (fesSelect (extremeSort e.speckles (fun s => subscriptKey (sortFunc s) corrImg))
          (⌊percent * (e.numSpeckles : ℚ)⌋).toNat best worst = [] →
        e.findExtremeSpeckles percent corrImg best worst sortFunc
          = Except.error "IndexError: list index out of range") := by
  have heval := findExtremeSpeckles_eval e s0 rest percent corrImg best worst sortFunc
    hsp hc hbw hkeys
  refine ⟨List.perm_insertionSort _ _, ?_, heval.1, heval.2⟩
  haveI : IsTotal Speckle (fun a b =>
      (subscriptKey (sortFunc b) corrImg).getD 0
        ≤ (subscriptKey (sortFunc a) corrImg).getD 0) :=
    ⟨fun a b => le_total _ _⟩
  haveI : IsTrans Speckle (fun a b =>
      (subscriptKey (sortFunc b) corrImg).getD 0
        ≤ (subscriptKey (sortFunc a) corrImg).getD 0) :=
    ⟨fun _ _ _ h1 h2 => le_trans h2 h1⟩
  exact List.sorted_insertionSort _ _

/-- C6: with both `best` and `worst` false (and the lag guard passing),
`findExtremeSpeckles` prints a message and returns `None`: no exception
is raised and no ensemble is produced, contrary to the claimed
`InvalidArguments` failure. -/
theorem findExtremeSpeckles_no_flags (e : Ensemble) (s0 : Speckle) (rest : List Speckle)
    (percent : ℚ) (corrImg : ℕ) (sortFunc : Speckle → RankingVal)
    (hsp : e.speckles = s0 :: rest) (hc : corrImg ≤ s0.timeInt.length) :
    e.findExtremeSpeckles percent corrImg false false sortFunc = Except.ok Option.none := by
  simp [Ensemble.findExtremeSpeckles, hsp, Nat.not_lt.mpr hc]

/-- Witness for C6 at a one-member ensemble. -/
theorem findExtremeSpeckles_no_flags_witness :
    ((Ensemble.init []).appendSpeckles [Speckle.create [1, 2]]).findExtremeSpeckles (1/2) 0
        false false (fun s => RankingVal.seq s.timeIAKF) = Except.ok Option.none :=
  findExtremeSpeckles_no_flags ((Ensemble.init []).appendSpeckles [Speckle.create [1, 2]])
    (Speckle.create [1, 2]) [] (1/2) 0 (fun s => RankingVal.seq s.timeIAKF)
    rfl (Nat.zero_le _)

/-- Witness for C5 (amended) at the three-member ensemble over
`[0, 3]`, `[1, 2]`, `[2, 2]`, with `fraction = 1/2`, lag `0`, best
only. -/
theorem findExtremeSpeckles_spec_witness :
    (extremeSort
        (((Ensemble.init []).appendSpeckles [Speckle.create [0, 3], Speckle.create [1, 2],
          Speckle.create [2, 2]]).speckles)
        (fun s => subscriptKey (RankingVal.seq s.timeIAKF) 0)).Perm
      (((Ensemble.init []).appendSpeckles [Speckle.create [0, 3], Speckle.create [1, 2],
        Speckle.create [2, 2]]).speckles)
    ∧ List.Sorted
        (fun a b => (subscriptKey (RankingVal.seq b.timeIAKF) 0).getD 0
          ≤ (subscriptKey (RankingVal.seq a.timeIAKF) 0).getD 0)
        (extremeSort
          (((Ensemble.init []).appendSpeckles [Speckle.create [0, 3], Speckle.create [1, 2],
            Speckle.create [2, 2]]).speckles)
          (fun s => subscriptKey (RankingVal.seq s.timeIAKF) 0))
    ∧ (fesSelect
          (extremeSort
            (((Ensemble.init []).appendSpeckles [Speckle.create [0, 3], Speckle.create [1, 2],
              Speckle.create [2, 2]]).speckles)
            (fun s => subscriptKey (RankingVal.seq s.timeIAKF) 0))
          (⌊(1/2 : ℚ) * ((((Ensemble.init []).appendSpeckles [Speckle.create [0, 3],
            Speckle.create [1, 2], Speckle.create [2, 2]]).numSpeckles : ℕ) : ℚ)⌋).toNat
          true false ≠ [] →
        fesProduced
          (((Ensemble.init []).appendSpeckles [Speckle.create [0, 3], Speckle.create [1, 2],
            Speckle.create [2, 2]]).findExtremeSpeckles (1/2) 0 true false
            (fun s => RankingVal.seq s.timeIAKF)) = true
        ∧ fesMembers
            (((Ensemble.init []).appendSpeckles [Speckle.create [0, 3], Speckle.create [1, 2],
              Speckle.create [2, 2]]).findExtremeSpeckles (1/2) 0 true false
              (fun s => RankingVal.seq s.timeIAKF))
            = fesSelect
                (extremeSort
                  (((Ensemble.init []).appendSpeckles [Speckle.create [0, 3],
                    Speckle.create [1, 2], Speckle.create [2, 2]]).speckles)
                  (fun s => subscriptKey (RankingVal.seq s.timeIAKF) 0))
                (⌊(1/2 : ℚ) * ((((Ensemble.init []).appendSpeckles [Speckle.create [0, 3],
                  Speckle.create [1, 2],
                  Speckle.create [2, 2]]).numSpeckles : ℕ) : ℚ)⌋).toNat
                true false)
    ∧ (fesSelect
          (extremeSort
            (((Ensemble.init []).appendSpeckles [Speckle.create [0, 3], Speckle.create [1, 2],
              Speckle.create [2, 2]]).speckles)
            (fun s => subscriptKey (RankingVal.seq s.timeIAKF) 0))
          (⌊(1/2 : ℚ) * ((((Ensemble.init []).appendSpeckles [Speckle.create [0, 3],
            Speckle.create [1, 2], Speckle.create [2, 2]]).numSpeckles : ℕ) : ℚ)⌋).toNat
          true false = [] →
        ((Ensemble.init []).appendSpeckles [Speckle.create [0, 3], Speckle.create [1, 2],
          Speckle.create [2, 2]]).findExtremeSpeckles (1/2) 0 true false
          (fun s => RankingVal.seq s.timeIAKF)
          = Except.error "IndexError: list index out of range") :=
  findExtremeSpeckles_spec
    ((Ensemble.init []).appendSpeckles [Speckle.create [0, 3], Speckle.create [1, 2],
      Speckle.create [2, 2]])
    (Speckle.create [0, 3]) [Speckle.create [1, 2], Speckle.create [2, 2]]
    (1/2) 0 true false (fun s => RankingVal.seq s.timeIAKF)
    rfl (Nat.zero_le _) rfl
    (by
      rw [List.all_eq_true]
      intro x hx
      have hx' : x ∈ [Speckle.create [0, 3], Speckle.create [1, 2],
          Speckle.create [2, 2]] := hx
      simp only [List.mem_cons, List.not_mem_nil, or_false] at hx'
      rcases hx' with rfl | rfl | rfl
      all_goals simp [subscriptKey, create_timeIAKF_length])
